import Mathlib

/-!
Shallow embedding of `sui-harvest` (src/main.rs): the streaming event
aggregation, ranking/suppression, statistics and rendering logic, together
with proofs about it.

Modelling conventions:
* Move type tags (`move_core_types::language_storage::TypeTag` / `StructTag`)
  become an inductive type; the `Struct` variant carries the four fields of
  `StructTag` inline (Rust boxes a `StructTag`), and `StructTag` itself is a
  separate structure with an embedding `TypeTag.structOf`.
* Rust `HashMap`s are modelled as association lists without duplicate keys;
  the `entry(..).or_insert(..)` idiom becomes an in-place bump that appends
  unseen keys.  The *contents* of a `HashMap` are deterministic; its
  *iteration order* is not, which is modelled by quantifying over
  permutations of the association list where iteration order matters.
* `u64` arithmetic is `Nat` with explicit reduction modulo `2 ^ 64` where the
  Rust code can wrap.
* `f64` arithmetic on the values arising here is embedded as exact `ℚ`
  arithmetic; `f64::round` is round-half-away-from-zero (`rustRound`).
* Operations that can panic at runtime (`usize` division by zero) return
  `Option`, with `none` standing for the panic.
-/

namespace SuiHarvest

/-- Move type tags (`TypeTag` from `move_core_types`): primitives, vectors and
structs.  The `struct` variant inlines the fields of a `StructTag`. -/
inductive TypeTag where
  | bool
  | u8
  | u16
  | u32
  | u64
  | u128
  | u256
  | address
  | signer
  | vector (elem : TypeTag)
  | struct (address : String) (module : String) (name : String) (type_params : List TypeTag)

mutual

/-- Structural boolean equality on type tags. -/
def TypeTag.beq : TypeTag → TypeTag → Bool
  | .bool, .bool => true
  | .u8, .u8 => true
  | .u16, .u16 => true
  | .u32, .u32 => true
  | .u64, .u64 => true
  | .u128, .u128 => true
  | .u256, .u256 => true
  | .address, .address => true
  | .signer, .signer => true
  | .vector a, .vector b => TypeTag.beq a b
  | .struct a1 m1 n1 p1, .struct a2 m2 n2 p2 =>
      a1 == a2 && m1 == m2 && n1 == n2 && TypeTag.beqList p1 p2
  | _, _ => false
termination_by structural t => t

/-- Structural boolean equality on lists of type tags. -/
def TypeTag.beqList : List TypeTag → List TypeTag → Bool
  | [], [] => true
  | x :: xs, y :: ys => TypeTag.beq x y && TypeTag.beqList xs ys
  | _, _ => false
termination_by structural ts => ts

end

mutual

theorem TypeTag.eq_of_beq : ∀ {a b : TypeTag}, TypeTag.beq a b = true → a = b
  | .bool, .bool, _ => rfl
  | .u8, .u8, _ => rfl
  | .u16, .u16, _ => rfl
  | .u32, .u32, _ => rfl
  | .u64, .u64, _ => rfl
  | .u128, .u128, _ => rfl
  | .u256, .u256, _ => rfl
  | .address, .address, _ => rfl
  | .signer, .signer, _ => rfl
  | .vector a, .vector b, h => by
      simp only [TypeTag.beq] at h
      exact congrArg TypeTag.vector (TypeTag.eq_of_beq h)
  | .struct a1 m1 n1 p1, .struct a2 m2 n2 p2, h => by
      simp only [TypeTag.beq, Bool.and_eq_true, beq_iff_eq] at h
      obtain ⟨⟨⟨ha, hm⟩, hn⟩, hp⟩ := h
      rw [ha, hm, hn, TypeTag.eqList_of_beqList hp]

theorem TypeTag.eqList_of_beqList :
    ∀ {xs ys : List TypeTag}, TypeTag.beqList xs ys = true → xs = ys
  | [], [], _ => rfl
  | x :: xs, y :: ys, h => by
      simp only [TypeTag.beqList, Bool.and_eq_true] at h
      obtain ⟨h1, h2⟩ := h
      rw [TypeTag.eq_of_beq h1, TypeTag.eqList_of_beqList h2]

end

mutual

theorem TypeTag.beq_refl : ∀ (a : TypeTag), TypeTag.beq a a = true
  | .bool => rfl
  | .u8 => rfl
  | .u16 => rfl
  | .u32 => rfl
  | .u64 => rfl
  | .u128 => rfl
  | .u256 => rfl
  | .address => rfl
  | .signer => rfl
  | .vector a => by simp only [TypeTag.beq]; exact TypeTag.beq_refl a
  | .struct a m n p => by simp [TypeTag.beq, TypeTag.beqList_refl p]

theorem TypeTag.beqList_refl : ∀ (xs : List TypeTag), TypeTag.beqList xs xs = true
  | [] => rfl
  | x :: xs => by
      simp only [TypeTag.beqList, Bool.and_eq_true]
      exact ⟨TypeTag.beq_refl x, TypeTag.beqList_refl xs⟩

end

instance : DecidableEq TypeTag := fun a b =>
  if h : TypeTag.beq a b = true then .isTrue (TypeTag.eq_of_beq h)
  else .isFalse (fun he => h (he ▸ TypeTag.beq_refl a))

/-- `StructTag` from `move_core_types`: address, module, name and type
parameters of a (possibly generic) Move struct type. -/
structure StructTag where
  address : String
  module : String
  name : String
  type_params : List TypeTag
deriving DecidableEq

/-- The `TypeTag::Struct` injection, with the `StructTag` fields spread into
the inlined `struct` variant. -/
def TypeTag.structOf (s : StructTag) : TypeTag :=
  .struct s.address s.module s.name s.type_params

mutual

/-- `TypeTag::to_canonical_string(false)`: primitives render as their
lower-case names, vectors as `vector<..>`, structs as
`address::module::name` with optional angle-bracketed parameters.  The
address is kept as the abstract string carried by the tag. -/
def TypeTag.to_canonical_string : TypeTag → String
  | .bool => "bool"
  | .u8 => "u8"
  | .u16 => "u16"
  | .u32 => "u32"
  | .u64 => "u64"
  | .u128 => "u128"
  | .u256 => "u256"
  | .address => "address"
  | .signer => "signer"
  | .vector t => "vector<" ++ TypeTag.to_canonical_string t ++ ">"
  | .struct a m n ps =>
      a ++ "::" ++ m ++ "::" ++ n ++
        (if ps.isEmpty then ""
         else "<" ++ String.intercalate ", " (TypeTag.canonList ps) ++ ">")
termination_by structural t => t

/-- Canonical strings of a list of type tags. -/
def TypeTag.canonList : List TypeTag → List String
  | [] => []
  | t :: ts => TypeTag.to_canonical_string t :: TypeTag.canonList ts
termination_by structural ts => ts

end

mutual

/-- `tag_to_short_string` (src/main.rs lines 41-47): structs are rendered by
the `type_to_short_string` logic (inlined here on the spread fields so the
recursion stays structural), vectors render as `Vector<..>`, everything else
(the primitives) via `to_canonical_string(false)`. -/
def tag_to_short_string : TypeTag → String
  | .struct _a m n ps =>
      let base := m ++ "::" ++ n
      if ps.isEmpty then base
      else base ++ "<" ++ String.intercalate ", " (shortList ps) ++ ">"
  | .vector t => "Vector<" ++ tag_to_short_string t ++ ">"
  | t => t.to_canonical_string
termination_by structural t => t

/-- Short strings of a list of type tags (the `iter().map(tag_to_short_string)`
in `type_to_short_string`). -/
def shortList : List TypeTag → List String
  | [] => []
  | t :: ts => tag_to_short_string t :: shortList ts
termination_by structural ts => ts

end

/-- `type_to_short_string` (src/main.rs lines 49-63): `module::name`, plus
`<..>` with the comma-joined recursively rendered type parameters when there
are any. -/
def type_to_short_string (s : StructTag) : String :=
  let base := s.module ++ "::" ++ s.name
  if s.type_params.isEmpty then base
  else base ++ "<" ++ String.intercalate ", " (shortList s.type_params) ++ ">"

/-- An event record as used by the consumer loop: the code reads
`event.type_` (a `StructTag`, whose `address` field is the emitting address)
and `event.package_id`. -/
structure Event where
  type_ : StructTag
  package_id : String

/-- The nested per-`StructTag` count map inside an address bucket. -/
abbrev Inner := List (StructTag × Nat)

/-- The `histogram` map: address to (total count, nested type counts). -/
abbrev Hist := List (String × Nat × Inner)

/-- The `events_by_package` map: package id to count. -/
abbrev PkgCounter := List (String × Nat)

/-- `value.1.entry(event.type_.clone()).or_insert(0); *entry += 1`: bump the
count for key `k`, appending a fresh entry with count `0 + 1` if absent. -/
def bumpInner : Inner → StructTag → Inner
  | [], k => [(k, 0 + 1)]
  | (k0, v) :: rest, k =>
      if k0 = k then (k0, v + 1) :: rest else (k0, v) :: bumpInner rest k

/-- `histogram.entry(event.type_.address).or_insert((0, HashMap::new()))`,
then `entry.0 += 1` and the nested bump: one ingestion step on the
histogram. -/
def bumpHist : Hist → Event → Hist
  | [], ev => [(ev.type_.address, 0 + 1, bumpInner [] ev.type_)]
  | (a, n, inner) :: rest, ev =>
      if a = ev.type_.address then (a, n + 1, bumpInner inner ev.type_) :: rest
      else (a, n, inner) :: bumpHist rest ev

/-- `events_by_package.entry(event.package_id).or_insert(0); *count += 1`. -/
def bumpPkg : PkgCounter → String → PkgCounter
  | [], k => [(k, 0 + 1)]
  | (k0, v) :: rest, k =>
      if k0 = k then (k0, v + 1) :: rest else (k0, v) :: bumpPkg rest k

/-- One iteration of the `data.iter().for_each(..)` body (src/main.rs lines
119-129) over the pair of aggregate maps. -/
def step (st : Hist × PkgCounter) (ev : Event) : Hist × PkgCounter :=
  (bumpHist st.1 ev, bumpPkg st.2 ev.package_id)

/-- The whole consumer loop: fold every received event, in arrival order,
into the (initially empty) aggregate maps.  Batch boundaries are irrelevant
to the fold, so the stream is flattened to one list of events. -/
def ingest (events : List Event) : Hist × PkgCounter :=
  events.foldl step ([], [])

/-- Sum of the nested per-type counts of one bucket. -/
def sumInner (inner : Inner) : Nat := (inner.map Prod.snd).sum

/-- `let total_events: usize = histogram.iter().map(|(_type_, value)| value.0).sum()`
(src/main.rs line 137). -/
def total_events (histogram : Hist) : Nat :=
  (histogram.map fun e => e.2.1).sum

/-- Sum of all per-package counts (`events_by_package.values().sum()`). -/
def sumPkg (events_by_package : PkgCounter) : Nat :=
  (events_by_package.map Prod.snd).sum

/-- Rust `f64::round`: round half away from zero. -/
def rustRound (x : ℚ) : ℤ :=
  if 0 ≤ x then ⌊x + 1 / 2⌋ else ⌈x - 1 / 2⌉

/-- `let cutoff = (total_events as f64 * args.suppress / 100.0).round() as usize`
(src/main.rs line 139); the `as usize` cast clamps negatives to zero, which
`Int.toNat` mirrors. -/
def cutoff (total_events : ℕ) (suppress : ℚ) : ℕ :=
  (rustRound ((total_events : ℚ) * suppress / 100)).toNat

/-- The comparator `|a, b| b.1.0.cmp(&a.1.0)` of the outer sort, as a
relation: `a` precedes `b` when `b`'s total count is at most `a`'s. -/
def outerLe (a b : String × Nat × Inner) : Prop := b.2.1 ≤ a.2.1

instance : DecidableRel outerLe := fun a b => Nat.decLe b.2.1 a.2.1

instance : IsTotal (String × Nat × Inner) outerLe :=
  ⟨fun a b => Nat.le_total b.2.1 a.2.1⟩

instance : IsTrans (String × Nat × Inner) outerLe :=
  ⟨fun _ _ _ hab hbc => le_trans hbc hab⟩

/-- The comparator `|a, b| b.1.cmp(&a.1)` of the inner sort. -/
def innerLe (a b : StructTag × Nat) : Prop := b.2 ≤ a.2

instance : DecidableRel innerLe := fun a b => Nat.decLe b.2 a.2

instance : IsTotal (StructTag × Nat) innerLe := ⟨fun a b => Nat.le_total b.2 a.2⟩

instance : IsTrans (StructTag × Nat) innerLe := ⟨fun _ _ _ hab hbc => le_trans hbc hab⟩

/-- `histogram.sort_by(|a, b| b.1.0.cmp(&a.1.0))` (src/main.rs line 134):
stable sort, descending by bucket total count.  Rust `sort_by` is stable, and
a stable sort's output is unique, so the stable `insertionSort` models it
exactly. -/
def sortOuter (histogram : Hist) : Hist :=
  histogram.insertionSort outerLe

/-- `inner_histogram.sort_by(|a, b| b.1.cmp(&a.1))` (src/main.rs line 152):
stable sort, descending by count. -/
def sortInner (inner : Inner) : Inner :=
  inner.insertionSort innerLe

/-- `if value.0 < cutoff { continue; }` (src/main.rs lines 145-147): keep
exactly the buckets whose total count is not below the cutoff. -/
def surviving (histogram : Hist) (c : ℕ) : Hist :=
  histogram.filter fun b => !(b.2.1 < c)

/-- The whole finalization pipeline of the printing phase (src/main.rs lines
133-152): sort buckets descending by total, compute the cutoff from the total
event count, drop buckets below the cutoff, and sort each surviving bucket's
nested counts descending. -/
def finalize (histogram : Hist) (suppress : ℚ) : Hist :=
  let sorted := sortOuter histogram
  let c := cutoff (total_events sorted) suppress
  (surviving sorted c).map fun b => (b.1, b.2.1, sortInner b.2.2)

/-- Left-pad-free `format ("\x7bpackage:<5\x7d")` style padding: pad to width
`w` with trailing spaces. -/
def padTo (s : String) (w : Nat) : String :=
  s ++ String.mk (List.replicate (w - s.length) ' ')

/-- One line of the `Events by package:` listing
(`println ("\x1b[34m\x7bpackage:<5\x7d\x1b[0m \x7bcount\x7d")`,
src/main.rs line 165). -/
def packageLine (package : String) (count : Nat) : String :=
  "\x1b[34m" ++ padTo package 5 ++ "\x1b[0m " ++ toString count

/-- The `Events by package:` listing (src/main.rs lines 164-166): the code
iterates `&events_by_package` directly, so the line order is the map's
iteration order, here the order of the association list. -/
def renderPackageLines (events_by_package : PkgCounter) : List String :=
  events_by_package.map fun pc => packageLine pc.1 pc.2

/-- `events_by_package.values().sum::<usize>() / total_packages`
(src/main.rs lines 167-168): `usize` division, which truncates, and panics
when `total_packages == 0`; the panic is modelled as `none`. -/
def average_events_by_package (events_by_package : PkgCounter) : Option Nat :=
  let total_packages := events_by_package.length
  if total_packages = 0 then none
  else some (sumPkg events_by_package / total_packages)

/-- Mean of a list of rationals (`statrs` works on the values as `f64`; the
values arising here are integers, so `ℚ` is exact). -/
def listMean (xs : List ℚ) : ℚ := xs.sum / xs.length

/-- Sum of squared deviations from the mean. -/
def sumSqDev (xs : List ℚ) : ℚ :=
  (xs.map fun x => (x - listMean xs) ^ 2).sum

/-- The square of `statrs::statistics::Statistics::std_dev`: `statrs`
documents `std_dev` as the square root of the *sample* variance, i.e. the
squared-deviation sum divided by `N - 1` (Bessel correction).  The square is
modelled to stay inside `ℚ`; comparisons of squares are faithful because the
square root is injective on nonnegatives. -/
def std_dev_sq (xs : List ℚ) : ℚ :=
  sumSqDev xs / ((xs.length : ℚ) - 1)

/-- Modelled from the spec: the square of the *population* standard deviation
("divide by N, not N−1") that §4.3 prescribes; stated for comparison with the
`std_dev_sq` the code actually computes. -/
def population_var_spec (xs : List ℚ) : ℚ :=
  sumSqDev xs / (xs.length : ℚ)

/-- The values fed to `.std_dev()`:
`events_by_package.values().map(|&x| x as f64)` (src/main.rs lines 169-172). -/
def pkgValues (events_by_package : PkgCounter) : List ℚ :=
  events_by_package.map fun pc => (pc.2 : ℚ)

/-- Squared `stdev_events_by_package` (src/main.rs lines 169-173). -/
def stdev_sq_events_by_package (events_by_package : PkgCounter) : ℚ :=
  std_dev_sq (pkgValues events_by_package)

/-- The `u64` modulus. -/
def U64_MOD : ℕ := 2 ^ 64

/-- Wrapping `u64` subtraction (release-mode Rust semantics of `a - b`),
for `a b < 2 ^ 64`. -/
def wrappingSub (a b : ℕ) : ℕ := (a + U64_MOD - b) % U64_MOD

/-- The initial checkpoint computation (src/main.rs lines 84-97):
`latest_checkpoint` when following, else `(latest_checkpoint - limit).max(0)`
on `u64`, where the subtraction wraps. -/
def initial_checkpoint (follow : Bool) (latest_checkpoint limit : ℕ) : ℕ :=
  if follow then latest_checkpoint
  else Nat.max (wrappingSub latest_checkpoint limit) 0

/-! Concrete fixtures used by witnesses and counterexamples. -/

/-- A concrete event type tag. -/
def tagA : StructTag := ⟨"0xaaa", "mod", "EventA", []⟩

/-- Another concrete event type tag. -/
def tagB : StructTag := ⟨"0xbbb", "mod", "EventB", []⟩

/-- A concrete event, attributed to package `A`. -/
def evA : Event := ⟨tagA, "A"⟩

/-- A concrete event, attributed to package `B`. -/
def evB : Event := ⟨tagB, "B"⟩

/-! Aggregation lemmas. -/

theorem sumInner_bumpInner (inner : Inner) (k : StructTag) :
    sumInner (bumpInner inner k) = sumInner inner + 1 := by
  induction inner with
  | nil => simp [bumpInner, sumInner]
  | cons p rest ih =>
      obtain ⟨k0, v⟩ := p
      by_cases h : k0 = k <;>
        simp only [bumpInner, h, if_true, if_false, sumInner, List.map_cons,
          List.sum_cons] at * <;> omega

theorem total_events_bumpHist (h : Hist) (ev : Event) :
    total_events (bumpHist h ev) = total_events h + 1 := by
  induction h with
  | nil => simp [bumpHist, total_events]
  | cons p rest ih =>
      obtain ⟨a, n, inner⟩ := p
      by_cases ha : a = ev.type_.address <;>
        simp only [bumpHist, ha, if_true, if_false, total_events, List.map_cons,
          List.sum_cons] at * <;> omega

theorem sumPkg_bumpPkg (p : PkgCounter) (k : String) :
    sumPkg (bumpPkg p k) = sumPkg p + 1 := by
  induction p with
  | nil => simp [bumpPkg, sumPkg]
  | cons q rest ih =>
      obtain ⟨k0, v⟩ := q
      by_cases h : k0 = k <;>
        simp only [bumpPkg, h, if_true, if_false, sumPkg, List.map_cons,
          List.sum_cons] at * <;> omega

theorem nested_bumpHist (h : Hist) (ev : Event)
    (hh : ∀ b ∈ h, sumInner b.2.2 = b.2.1) :
    ∀ b ∈ bumpHist h ev, sumInner b.2.2 = b.2.1 := by
  induction h with
  | nil =>
      intro b hb
      simp only [bumpHist, List.mem_singleton] at hb
      subst hb
      show sumInner (bumpInner [] ev.type_) = 0 + 1
      rw [sumInner_bumpInner]
      simp [sumInner]
  | cons p rest ih =>
      obtain ⟨a, n, inner⟩ := p
      intro b hb
      simp only [bumpHist] at hb
      by_cases ha : a = ev.type_.address
      · rw [if_pos ha] at hb
        rcases List.mem_cons.mp hb with hb | hb
        · subst hb
          have hn := hh (a, n, inner) (List.mem_cons_self _ _)
          show sumInner (bumpInner inner ev.type_) = n + 1
          rw [sumInner_bumpInner]
          simp only [sumInner] at hn ⊢
          omega
        · exact hh b (List.mem_cons_of_mem _ hb)
      · rw [if_neg ha] at hb
        rcases List.mem_cons.mp hb with hb | hb
        · subst hb
          exact hh (a, n, inner) (List.mem_cons_self _ _)
        · exact ih (fun b' hb' => hh b' (List.mem_cons_of_mem _ hb')) b hb

theorem ingest_loop_invariant (events : List Event) :
    ∀ st : Hist × PkgCounter,
      total_events (events.foldl step st).1 = total_events st.1 + events.length ∧
      sumPkg (events.foldl step st).2 = sumPkg st.2 + events.length ∧
      ((∀ b ∈ st.1, sumInner b.2.2 = b.2.1) →
        ∀ b ∈ (events.foldl step st).1, sumInner b.2.2 = b.2.1) := by
  induction events with
  | nil => intro st; simp
  | cons ev rest ih =>
      intro st
      obtain ⟨h1, h2, h3⟩ := ih (step st ev)
      have hstep1 : total_events (step st ev).1 = total_events st.1 + 1 :=
        total_events_bumpHist st.1 ev
      have hstep2 : sumPkg (step st ev).2 = sumPkg st.2 + 1 :=
        sumPkg_bumpPkg st.2 ev.package_id
      refine ⟨?_, ?_, ?_⟩
      · rw [List.foldl_cons, h1, hstep1, List.length_cons]
        omega
      · rw [List.foldl_cons, h2, hstep2, List.length_cons]
        omega
      · intro hok
        exact h3 (nested_bumpHist st.1 ev hok)

/-- C2: for every sequence of ingested event-records, the sum of all address
bucket total counts and the sum of all package counts both equal the number
of records ingested, and within each bucket the nested per-type counts sum to
the bucket's total count. -/
theorem conservation (events : List Event) :
    total_events (ingest events).1 = events.length ∧
    sumPkg (ingest events).2 = events.length ∧
    ∀ b ∈ (ingest events).1, sumInner b.2.2 = b.2.1 := by
  obtain ⟨h1, h2, h3⟩ := ingest_loop_invariant events ([], [])
  refine ⟨?_, ?_, h3 (by simp)⟩
  · simpa [total_events] using h1
  · simpa [sumPkg] using h2

/-- Witness for `conservation`: after ingesting `[evA, evB, evB]`, the bucket
of address `0xaaa` has nested counts summing to its total `1`. -/
theorem conservation_witness :
    sumInner (bumpInner [] tagA) = 1 :=
  (conservation [evA, evB, evB]).2.2 ("0xaaa", 1, bumpInner [] tagA) (by decide)

/-! Cutoff and filter helper lemmas (shared by several claims). -/

theorem cutoff_zero_total (s : ℚ) : cutoff 0 s = 0 := by
  show (rustRound ((0 : ℚ) * s / 100)).toNat = 0
  rw [show (0 : ℚ) * s / 100 = 0 by ring, rustRound, if_pos le_rfl]
  norm_num

theorem cutoff_zero_suppress (t : ℕ) : cutoff t 0 = 0 := by
  show (rustRound ((t : ℚ) * 0 / 100)).toNat = 0
  rw [show (t : ℚ) * 0 / 100 = 0 by ring, rustRound, if_pos le_rfl]
  norm_num

theorem surviving_zero (h : Hist) : surviving h 0 = h :=
  List.filter_eq_self.mpr fun b _ => by simp

/-- Unfolding of the `finalize` pipeline. -/
theorem finalize_eq (histogram : Hist) (s : ℚ) :
    finalize histogram s =
      (surviving (sortOuter histogram)
          (cutoff (total_events (sortOuter histogram)) s)).map
        fun b => (b.1, b.2.1, sortInner b.2.2) := rfl

/-- C3: the suppression cutoff is `round(total_events * suppress / 100)` with
round-half-away-from-zero (Rust `f64::round`); in particular for
`total_events = 1000` and `suppress = 0.5` it is `5`; and it is a pure
function of the total event count and the percentage, so it is unchanged
under any reordering (map iteration order) of the histogram it is summed
from. -/
theorem cutoff_spec :
    cutoff 1000 (1 / 2) = 5 ∧
    (∀ (t : ℕ) (s : ℚ), cutoff t s = (rustRound ((t : ℚ) * s / 100)).toNat) ∧
    (∀ (h h' : Hist) (s : ℚ), h.Perm h' →
      cutoff (total_events h) s = cutoff (total_events h') s) := by
  refine ⟨?_, fun t s => rfl, fun h h' s hp => ?_⟩
  · show (rustRound ((1000 : ℚ) * (1 / 2) / 100)).toNat = 5
    rw [rustRound, if_pos (by norm_num)]
    norm_num
    decide
  · have hsum : total_events h = total_events h' := by
      unfold total_events
      exact (hp.map fun e => e.2.1).sum_eq
    rw [hsum]

/-- Witness for `cutoff_spec`: its permutation clause applied to a concrete
two-bucket histogram and its swap. -/
theorem cutoff_spec_witness :
    cutoff (total_events [("a", 2, []), ("b", 3, [])]) 10 =
      cutoff (total_events [("b", 3, []), ("a", 2, [])]) 10 :=
  cutoff_spec.2.2 [("a", 2, []), ("b", 3, [])] [("b", 3, []), ("a", 2, [])] 10
    (List.Perm.swap _ _ _)

/-- C4: for every frozen histogram and cutoff, exactly the buckets whose
total count is strictly below the cutoff are discarded (a bucket survives iff
its count is at least the cutoff), a cutoff of `0` discards nothing, and both
`total_events = 0` and `suppress = 0` give cutoff `0`. -/
theorem suppression_spec :
    (∀ (h : Hist) (c : ℕ) (b : String × ℕ × Inner),
        b ∈ surviving h c ↔ b ∈ h ∧ c ≤ b.2.1) ∧
    (∀ h : Hist, surviving h 0 = h) ∧
    (∀ s : ℚ, cutoff 0 s = 0) ∧
    (∀ t : ℕ, cutoff t 0 = 0) := by
  refine ⟨fun h c b => ?_, surviving_zero, cutoff_zero_total, cutoff_zero_suppress⟩
  simp [surviving, List.mem_filter, Nat.not_lt]

/-- Witness for `suppression_spec`: a bucket with count `2` survives cutoff
`2` but a cutoff-`3` run discards it. -/
theorem suppression_spec_witness :
    ("a", 2, ([] : Inner)) ∈ surviving [("a", 2, [])] 2 ∧
    surviving [("a", 2, [])] 0 = [("a", 2, [])] :=
  ⟨(suppression_spec.1 [("a", 2, [])] 2 _).mpr ⟨by decide, by decide⟩,
    suppression_spec.2.1 [("a", 2, [])]⟩

/-- C9: in the finalized output the address buckets appear in descending
order of their total counts, and inside each surviving bucket the nested
type counts appear in descending order. -/
theorem finalize_sorted (histogram : Hist) (s : ℚ) :
    (finalize histogram s).Pairwise
        (fun a b : String × ℕ × Inner => b.2.1 ≤ a.2.1) ∧
    ∀ b ∈ finalize histogram s,
      b.2.2.Pairwise fun x y : StructTag × ℕ => y.2 ≤ x.2 := by
  constructor
  · have hsorted : (sortOuter histogram).Pairwise outerLe :=
      List.sorted_insertionSort outerLe histogram
    have hfilter :
        (surviving (sortOuter histogram)
            (cutoff (total_events (sortOuter histogram)) s)).Pairwise outerLe :=
      hsorted.filter _
    rw [finalize_eq]
    exact List.pairwise_map.mpr (hfilter.imp fun hab => hab)
  · intro b hb
    rw [finalize_eq] at hb
    obtain ⟨b', _hb', rfl⟩ := List.mem_map.mp hb
    exact List.sorted_insertionSort innerLe b'.2.2

/-- Witness for `finalize_sorted`: the single surviving bucket of a concrete
run has its inner listing sorted. -/
theorem finalize_sorted_witness :
    ([(tagA, 1)] : Inner).Pairwise (fun x y : StructTag × ℕ => y.2 ≤ x.2) :=
  (finalize_sorted [("0xaaa", 1, [(tagA, 1)])] 0).2 ("0xaaa", 1, [(tagA, 1)])
    (by rw [finalize_eq, cutoff_zero_suppress, surviving_zero]; decide)

theorem shortList_eq_map (ps : List TypeTag) :
    shortList ps = ps.map tag_to_short_string := by
  induction ps with
  | nil => rfl
  | cons t ts ih => simp [shortList, ih]

/-- C8: the recursive type renderer is a pure function with: structs
rendering as `module::name`, plus the comma-joined recursively rendered
parameters in angle brackets when parameters are present; vectors rendering
as `Vector<..>`; primitives rendering via their canonical textual form — and
the two concrete instances `mod::Foo<mod::Bar>` and `Vector<mod::Bar>` come
out as the spec says. -/
theorem type_rendering :
    (∀ a m n : String, type_to_short_string ⟨a, m, n, []⟩ = m ++ "::" ++ n) ∧
    (∀ (a m n : String) (p : TypeTag) (ps : List TypeTag),
      type_to_short_string ⟨a, m, n, p :: ps⟩ =
        m ++ "::" ++ n ++ "<" ++
          String.intercalate ", " ((p :: ps).map tag_to_short_string) ++ ">") ∧
    (∀ t : TypeTag,
      tag_to_short_string (.vector t) = "Vector<" ++ tag_to_short_string t ++ ">") ∧
    (∀ s : StructTag, tag_to_short_string (TypeTag.structOf s) = type_to_short_string s) ∧
    (tag_to_short_string .bool = TypeTag.to_canonical_string .bool ∧
      tag_to_short_string .u8 = TypeTag.to_canonical_string .u8 ∧
      tag_to_short_string .u16 = TypeTag.to_canonical_string .u16 ∧
      tag_to_short_string .u32 = TypeTag.to_canonical_string .u32 ∧
      tag_to_short_string .u64 = TypeTag.to_canonical_string .u64 ∧
      tag_to_short_string .u128 = TypeTag.to_canonical_string .u128 ∧
      tag_to_short_string .u256 = TypeTag.to_canonical_string .u256 ∧
      tag_to_short_string .address = TypeTag.to_canonical_string .address ∧
      tag_to_short_string .signer = TypeTag.to_canonical_string .signer) ∧
    type_to_short_string ⟨"0xabc", "mod", "Foo", [TypeTag.structOf ⟨"0xabc", "mod", "Bar", []⟩]⟩ =
      "mod::Foo<mod::Bar>" ∧
    tag_to_short_string (.vector (TypeTag.structOf ⟨"0xabc", "mod", "Bar", []⟩)) =
      "Vector<mod::Bar>" ∧
    type_to_short_string
        ⟨"0xabc", "mod", "Foo", [.vector (TypeTag.structOf ⟨"0xabc", "mod", "Bar", []⟩)]⟩ =
      "mod::Foo<Vector<mod::Bar>>" := by
  refine ⟨fun a m n => rfl, fun a m n p ps => ?_, fun t => rfl, fun s => ?_,
    ⟨rfl, rfl, rfl, rfl, rfl, rfl, rfl, rfl, rfl⟩, by decide, by decide, by decide⟩
  · simp [type_to_short_string, shortList_eq_map]
  · obtain ⟨sa, sm, sn, sp⟩ := s
    cases sp <;> rfl

/-- C10: with `--follow` off, the start checkpoint is
`(latest_checkpoint - limit).max(0)` on `u64`: when `limit ≤ latest` it is
the true difference, when `limit > latest` the subtraction wraps to a huge
value (greater than `latest`, certainly not `0`), and `.max(0)` is the
identity on an unsigned value, so the clamp to `0` the expression suggests
never takes effect. -/
theorem initial_checkpoint_underflow (latest_checkpoint limit : ℕ)
    (hlatest : latest_checkpoint < U64_MOD) (hlimit : limit < U64_MOD) :
    (limit ≤ latest_checkpoint →
      initial_checkpoint false latest_checkpoint limit = latest_checkpoint - limit) ∧
    (latest_checkpoint < limit →
      initial_checkpoint false latest_checkpoint limit =
          latest_checkpoint + U64_MOD - limit ∧
        latest_checkpoint < initial_checkpoint false latest_checkpoint limit) ∧
    Nat.max (wrappingSub latest_checkpoint limit) 0 =
      wrappingSub latest_checkpoint limit := by
  have hM : U64_MOD = 18446744073709551616 := by norm_num [U64_MOD]
  have hinit : initial_checkpoint false latest_checkpoint limit =
      wrappingSub latest_checkpoint limit := by
    show Nat.max (wrappingSub latest_checkpoint limit) 0 = _
    exact Nat.max_eq_left (Nat.zero_le _)
  rw [hM] at hlatest hlimit
  refine ⟨fun hle => ?_, fun hlt => ⟨?_, ?_⟩, Nat.max_eq_left (Nat.zero_le _)⟩ <;>
    rw [hinit, wrappingSub, hM] <;> omega

/-- Witness for `initial_checkpoint_underflow`: with `latest = 5` and
`limit = 10` the computed start checkpoint is `2^64 - 5`, far above `5`. -/
theorem initial_checkpoint_underflow_witness :
    initial_checkpoint false 5 10 = 5 + U64_MOD - 10 ∧
      5 < initial_checkpoint false 5 10 :=
  (initial_checkpoint_underflow 5 10 (by norm_num [U64_MOD])
    (by norm_num [U64_MOD])).2.1 (by norm_num)

/-- C7: the code does not special-case an empty package map: with zero
records ingested `events_by_package` is empty and the summary divides by
`total_packages == 0`, a `usize` division that panics at runtime (modelled
as `none`) instead of signalling a defined no-data result. -/
theorem empty_input_division_panics :
    (ingest []).2 = [] ∧ average_events_by_package (ingest []).2 = none :=
  ⟨rfl, rfl⟩

/-- C6 counterexample: ingesting one event for package `A` and two for
package `B` gives three events over two packages; the code reports the mean
`3 / 2 = 1` by `usize` division, but exact (float) division gives `3 / 2 =
1.5 ≠ 1`. -/
theorem average_integer_division_counterexample :
    (ingest [evA, evB, evB]).2 = [("A", 1), ("B", 2)] ∧
    average_events_by_package [("A", 1), ("B", 2)] = some 1 ∧
    (1 : ℚ) ≠ 3 / 2 :=
  ⟨by decide, by decide, by norm_num⟩

/-- C6 (amended): for every non-empty package counter the reported mean is
the *integer* (truncating) division of total events by package count, i.e.
the floor of the exact rational mean — not the exact float mean. -/
theorem average_is_floor_of_mean (events_by_package : PkgCounter)
    (hne : events_by_package ≠ []) :
    average_events_by_package events_by_package =
      some ⌊(sumPkg events_by_package : ℚ) / (events_by_package.length : ℚ)⌋₊ := by
  unfold average_events_by_package
  rw [if_neg fun h => hne (List.length_eq_zero.mp h), Nat.floor_div_nat,
    Nat.floor_natCast]

/-- Witness for `average_is_floor_of_mean` at the concrete counter
`[A: 1, B: 2]`. -/
theorem average_is_floor_of_mean_witness :
    average_events_by_package [("A", 1), ("B", 2)] =
      some ⌊(sumPkg [("A", 1), ("B", 2)] : ℚ) /
        (([("A", 1), ("B", 2)] : PkgCounter).length : ℚ)⌋₊ :=
  average_is_floor_of_mean [("A", 1), ("B", 2)] (by decide)

/-- The spec's statistics example stream: 10 events attributed to package
`A`, then 20 and 30 more events attributed to package `B`. -/
def stats_events : List Event :=
  List.replicate 10 evA ++ (List.replicate 20 evB ++ List.replicate 30 evB)

/-- C5 counterexample: on the spec's own example (`PackageCounter = [A: 10,
B: 50]`) the code's standard deviation squared is `800` — `statrs`'s
`std_dev` divides by `N - 1` — whereas the claimed population standard
deviation `20` would square to `400`. -/
theorem stddev_population_counterexample :
    (ingest stats_events).2 = [("A", 10), ("B", 50)] ∧
    stdev_sq_events_by_package [("A", 10), ("B", 50)] = 800 ∧
    (800 : ℚ) ≠ 20 ^ 2 := by
  refine ⟨by decide, ?_, by norm_num⟩
  show std_dev_sq (pkgValues [("A", 10), ("B", 50)]) = 800
  rw [show pkgValues [("A", 10), ("B", 50)] = [10, 50] by norm_num [pkgValues]]
  simp [std_dev_sq, sumSqDev, listMean]
  norm_num

/-- C5 (amended): the reported standard deviation is the *sample* standard
deviation (squared-deviation sum divided by `N - 1`, Bessel-corrected), not
the population one: for every value list, the code's squared deviation times
`N - 1` equals the population variance times `N`, and on the spec's example
the code yields squared stddev `800` (stddev `20 * sqrt 2 ≈ 28.28`) where
the population stddev would be `20`. -/
theorem stddev_sample_semantics :
    (∀ xs : List ℚ,
      std_dev_sq xs * ((xs.length : ℚ) - 1) =
        population_var_spec xs * (xs.length : ℚ)) ∧
    stdev_sq_events_by_package (ingest stats_events).2 = 800 ∧
    population_var_spec (pkgValues (ingest stats_events).2) = 400 := by
  have hpkg : (ingest stats_events).2 = [("A", 10), ("B", 50)] := by decide
  have hvals : pkgValues [("A", 10), ("B", 50)] = [10, 50] := by norm_num [pkgValues]
  refine ⟨fun xs => ?_, ?_, ?_⟩
  · match xs with
    | [] => norm_num [std_dev_sq, population_var_spec, sumSqDev, listMean]
    | [x] => simp [std_dev_sq, population_var_spec, sumSqDev, listMean]
    | x :: y :: rest =>
        have hn : ((x :: y :: rest).length : ℚ) ≠ 0 := by
          simp [List.length_cons]
          positivity
        have hn1 : ((x :: y :: rest).length : ℚ) - 1 ≠ 0 := by
          simp only [List.length_cons]
          push_cast
          intro hc
          nlinarith [Nat.cast_nonneg (α := ℚ) rest.length]
        rw [std_dev_sq, population_var_spec, div_mul_cancel₀ _ hn1,
          div_mul_cancel₀ _ hn]
  · rw [hpkg]
    show std_dev_sq (pkgValues [("A", 10), ("B", 50)]) = 800
    rw [hvals]
    simp [std_dev_sq, sumSqDev, listMean]
    norm_num
  · rw [hpkg, hvals]
    simp [population_var_spec, sumSqDev, listMean]
    norm_num

/-- C1: the rendered output is *not* independent of map iteration order.
The per-package listing iterates `events_by_package` directly, and the outer
sort has no tie-break beyond the stable sort's preservation of input order,
so the same map contents presented in two iteration orders (the two
permutations below) render differently.  `HashMap` iteration order is
unspecified and varies between runs (randomized hasher seed), so two runs
over an identical stream can produce different output. -/
theorem output_depends_on_iteration_order :
    ([("A", 1), ("B", 1)] : PkgCounter).Perm [("B", 1), ("A", 1)] ∧
    renderPackageLines [("A", 1), ("B", 1)] ≠
      renderPackageLines [("B", 1), ("A", 1)] ∧
    ([("0xaaa", 1, [(tagA, 1)]), ("0xbbb", 1, [(tagB, 1)])] : Hist).Perm
      [("0xbbb", 1, [(tagB, 1)]), ("0xaaa", 1, [(tagA, 1)])] ∧
    sortOuter [("0xaaa", 1, [(tagA, 1)]), ("0xbbb", 1, [(tagB, 1)])] ≠
      sortOuter [("0xbbb", 1, [(tagB, 1)]), ("0xaaa", 1, [(tagA, 1)])] :=
  ⟨by decide, by decide, by decide, by decide⟩

end SuiHarvest
